import Mathlib

/-!
Shallow embedding of the MPSC channel in `src/channels/src/lib.rs`.

The shared state guarded by the mutex is `Queue` (`_queue : VecDeque<T>`,
`senderCount : usize`); the receiver additionally owns a private
`cache : VecDeque<T>`.  Because every operation of the source touches the
shared state only inside one critical section, each public operation is
embedded as a pure function on the combined state `ChannelState`; a run of
the program is a sequence of such atomic operations, which is exactly the
set of interleavings the single mutex admits.  `VecDeque` is embedded as
`List` (front = head, push_back = append at the tail).  `usize` is `Nat`
with arithmetic taken modulo `2 ^ 64` where the source can overflow.

Blocking is embedded by making `receive` return a `blocked` marker when the
source would park the thread on the condition variable: in a state where
the queue is empty and senders remain alive, no value can be produced
without another operation running first, so the sequential embedding
returns control with the state unchanged.
-/

namespace Channels

variable {T : Type}

/-- The modulus of `usize` arithmetic (64-bit target): `2 ^ 64`, written as
a literal so that kernel arithmetic on it stays fast. -/
def usizeMod : Nat := 18446744073709551616

/-- Embeds `struct Queue<T>`: the mutex-protected shared state. -/
structure Queue (T : Type) where
  _queue : List T
  senderCount : Nat
deriving DecidableEq

/-- Combined channel state: the shared `Queue` plus the receiver's private
`cache` (the source keeps the cache in `Receiver`; there is exactly one
receiver, so the pair describes the whole observable state). -/
structure ChannelState (T : Type) where
  queue : Queue T
  cache : List T
deriving DecidableEq

/-- Outcome of one `Receiver::receive` call.  `value`/`endOfStream` embed
`Some`/`None`; `blocked` marks the branch where the source parks the thread
on the condition variable (queue empty, `senderCount > 0`). -/
inductive ReceiveResult (T : Type) where
  | value : T → ReceiveResult T
  | endOfStream : ReceiveResult T
  | blocked : ReceiveResult T
deriving DecidableEq

/-- Result state of a `receive` call, instrumented with whether the shared
mutex was acquired (the source acquires it exactly when the fast-path pop
from the private cache fails). -/
structure ReceiveOutcome (T : Type) where
  result : ReceiveResult T
  state : ChannelState T
  lockAcquired : Bool
deriving DecidableEq

/-- Embeds `Channel::<T>::new`: fresh shared state with an empty queue,
`senderCount = 1`, and an empty receiver cache. -/
def Channel.new (T : Type) : ChannelState T :=
  { queue := { _queue := [], senderCount := 1 }, cache := [] }

/-- Embeds `Sender::send`: lock, `push_back(t)`, unlock, `notify_one`. -/
def Sender.send (s : ChannelState T) (t : T) : ChannelState T :=
  { s with queue := { s.queue with _queue := s.queue._queue ++ [t] } }

/-- Embeds `Clone for Sender`: lock, `senderCount += 1`, unlock. -/
def Sender.clone (s : ChannelState T) : ChannelState T :=
  { s with queue := { s.queue with senderCount := (s.queue.senderCount + 1) % usizeMod } }

/-- Embeds `Drop for Sender`: lock, `senderCount -= 1` (wrapping `usize`
subtraction), read `noSenders = (senderCount == 0)` still under the lock,
unlock, and `notify_one` iff `noSenders`.  Returns the new state together
with whether the condition variable was signalled. -/
def Sender.drop (s : ChannelState T) : ChannelState T × Bool :=
  let newCount := (s.queue.senderCount + (usizeMod - 1)) % usizeMod
  ({ s with queue := { s.queue with senderCount := newCount } }, newCount == 0)

/-- Embeds `Receiver::receive`.  Fast path: pop the front of the private
cache without the lock.  Slow path (lock held): pop the shared queue's
front; if the rest is non-empty, `swap(&mut self.cache, &mut _queue)`
(the cache receives the rest, the shared queue receives the old cache);
if the queue is empty, return end-of-stream when `senderCount == 0`, else
park on the condition variable (`blocked`). -/
def Receiver.receive (s : ChannelState T) : ReceiveOutcome T :=
  match s.cache with
  | t :: rest => ⟨ReceiveResult.value t, { s with cache := rest }, false⟩
  | [] =>
    match s.queue._queue with
    | t :: rest =>
      if rest.isEmpty then
        ⟨ReceiveResult.value t, { s with queue := { s.queue with _queue := rest } }, true⟩
      else
        ⟨ReceiveResult.value t,
          { queue := { s.queue with _queue := s.cache }, cache := rest }, true⟩
    | [] =>
      if s.queue.senderCount == 0 then
        ⟨ReceiveResult.endOfStream, s, true⟩
      else
        ⟨ReceiveResult.blocked, s, true⟩

/-- Modelled from the spec, for the refinement claim: identical to
`Receiver.receive` except that the swap branch follows the spec's words —
"move the *entire remaining* `pending` sequence into `localCache` in one
operation (order-preserving), emptying `pending`" — literally, writing `[]`
into the shared queue instead of the old cache contents. -/
def Receiver.receiveSpecMove (s : ChannelState T) : ReceiveOutcome T :=
  match s.cache with
  | t :: rest => ⟨ReceiveResult.value t, { s with cache := rest }, false⟩
  | [] =>
    match s.queue._queue with
    | t :: rest =>
      if rest.isEmpty then
        ⟨ReceiveResult.value t, { s with queue := { s.queue with _queue := rest } }, true⟩
      else
        ⟨ReceiveResult.value t,
          { queue := { s.queue with _queue := [] }, cache := rest }, true⟩
    | [] =>
      if s.queue.senderCount == 0 then
        ⟨ReceiveResult.endOfStream, s, true⟩
      else
        ⟨ReceiveResult.blocked, s, true⟩

/-- Send a whole list of values in order (repeated `Sender::send`). -/
def sendAll (s : ChannelState T) : List T → ChannelState T
  | [] => s
  | t :: ts => sendAll (Sender.send s t) ts

/-- Call `receive` up to `n` times, collecting the returned values, the
final state, and how many of the calls acquired the shared lock; stops
early if a call yields no value. -/
def drainN (s : ChannelState T) : Nat → List T × ChannelState T × Nat
  | 0 => ([], s, 0)
  | n + 1 =>
    let o := Receiver.receive s
    match o.result with
    | ReceiveResult.value t =>
      let r := drainN o.state n
      (t :: r.1, r.2.1, (if o.lockAcquired then 1 else 0) + r.2.2)
    | _ => ([], o.state, if o.lockAcquired then 1 else 0)

/-- A configuration: the channel state paired with the number of live
`Sender` handles currently owned by client code. -/
abbrev Cfg (T : Type) := ChannelState T × Nat

/-- One step through the public interface.  `send`, `clone` and `drop`
require a live `Sender` handle (`0 < h`); `receive` requires the receiver,
which lives for the whole trace. -/
inductive Step : Cfg T → Cfg T → Prop where
  | send (s : ChannelState T) (h : Nat) (t : T) :
      0 < h → Step (s, h) (Sender.send s t, h)
  | clone (s : ChannelState T) (h : Nat) :
      0 < h → Step (s, h) (Sender.clone s, h + 1)
  | senderDrop (s : ChannelState T) (h : Nat) :
      0 < h → Step (s, h) ((Sender.drop s).1, h - 1)
  | receive (s : ChannelState T) (h : Nat) :
      Step (s, h) ((Receiver.receive s).state, h)

/-- Reflexive-transitive closure of `Step`, from a fixed start. -/
inductive Steps (a : Cfg T) : Cfg T → Prop where
  | refl : Steps a a
  | tail {b c : Cfg T} : Steps a b → Step b c → Steps a c

/-- Configurations reachable through the public interface: the factory
returns the fresh state together with exactly one `Sender` handle. -/
abbrev Reach (c : Cfg T) : Prop :=
  Steps (Channel.new T, 1) c

/-! ## Basic lemmas about single operations -/

/-- Fast path of `receive`: a non-empty cache is popped without the lock. -/
theorem receive_fast {s : ChannelState T} {t : T} {rest : List T} (hc : s.cache = t :: rest) :
    Receiver.receive s = ⟨ReceiveResult.value t, { s with cache := rest }, false⟩ := by
  obtain ⟨⟨q, n⟩, c⟩ := s
  subst hc
  rfl

/-- Slow path of `receive` on a non-empty shared queue: the front is
returned, the shared queue ends up empty and the cache holds the rest
(uniformly: when the rest is empty no swap happens but the result state is
the same). -/
theorem receive_slow_value {s : ChannelState T} {t : T} {rest : List T}
    (hc : s.cache = []) (hq : s.queue._queue = t :: rest) :
    Receiver.receive s = ⟨ReceiveResult.value t, ⟨⟨[], s.queue.senderCount⟩, rest⟩, true⟩ := by
  obtain ⟨⟨q, n⟩, c⟩ := s
  subst hc
  subst hq
  cases rest with
  | nil => rfl
  | cons b bs => rfl

/-- Slow path of `receive` on an empty queue with no live senders:
end-of-stream, state untouched. -/
theorem receive_closed {s : ChannelState T}
    (hc : s.cache = []) (hq : s.queue._queue = []) (hn : s.queue.senderCount = 0) :
    Receiver.receive s = ⟨ReceiveResult.endOfStream, s, true⟩ := by
  obtain ⟨⟨q, n⟩, c⟩ := s
  subst hc
  subst hq
  subst hn
  rfl

/-- Slow path of `receive` on an empty queue with live senders: the thread
parks on the condition variable, state untouched. -/
theorem receive_blocked {s : ChannelState T}
    (hc : s.cache = []) (hq : s.queue._queue = []) (hn : s.queue.senderCount ≠ 0) :
    Receiver.receive s = ⟨ReceiveResult.blocked, s, true⟩ := by
  obtain ⟨⟨q, n⟩, c⟩ := s
  subst hc
  subst hq
  simp only [Receiver.receive]
  simp [hn]

/-- `receive` never changes the sender count. -/
theorem receive_count (s : ChannelState T) :
    (Receiver.receive s).state.queue.senderCount = s.queue.senderCount := by
  obtain ⟨⟨q, n⟩, c⟩ := s
  cases c with
  | cons a as => rfl
  | nil =>
    cases q with
    | nil =>
      by_cases h : n = 0
      · subst h; rfl
      · rw [receive_blocked rfl rfl h]
    | cons b bs => cases bs <;> rfl

/-- When at least one value is available (cache then queue order), `receive`
returns the first of them and the remaining values keep their order. -/
theorem receive_avail {s : ChannelState T} {t : T} {rest : List T}
    (h : s.cache ++ s.queue._queue = t :: rest) :
    (Receiver.receive s).result = ReceiveResult.value t
      ∧ (Receiver.receive s).state.cache ++ (Receiver.receive s).state.queue._queue = rest := by
  obtain ⟨⟨q, n⟩, c⟩ := s
  cases c with
  | cons a as =>
    simp only [List.cons_append, List.cons.injEq] at h
    obtain ⟨rfl, rfl⟩ := h
    exact ⟨rfl, rfl⟩
  | nil =>
    simp only [List.nil_append] at h
    subst h
    cases rest with
    | nil => exact ⟨rfl, rfl⟩
    | cons b bs => exact ⟨rfl, by simp [Receiver.receive]⟩

/-- `sendAll` appends the sent values at the tail, in order, and changes
nothing else. -/
theorem sendAll_eq : ∀ (vs : List T) (s : ChannelState T),
    sendAll s vs = ⟨⟨s.queue._queue ++ vs, s.queue.senderCount⟩, s.cache⟩ := by
  intro vs
  induction vs with
  | nil => intro s; obtain ⟨⟨q, n⟩, c⟩ := s; simp [sendAll]
  | cons t ts ih =>
    intro s
    rw [sendAll, ih]
    simp [Sender.send]

/-! ## Draining lemmas -/

/-- `n` receive calls deliver the first `n` available values — the cache
followed by the shared queue — in order. -/
theorem drainN_take (n : Nat) : ∀ s : ChannelState T,
    (drainN s n).1 = (s.cache ++ s.queue._queue).take n := by
  induction n with
  | zero => intro s; simp [drainN]
  | succ n ih =>
    intro s
    cases h : s.cache ++ s.queue._queue with
    | nil =>
      have hc : s.cache = [] := by
        cases hcc : s.cache with
        | nil => rfl
        | cons a as => rw [hcc] at h; simp at h
      have hq : s.queue._queue = [] := by
        rw [hc] at h; simpa using h
      by_cases hn : s.queue.senderCount = 0
      · simp [drainN, receive_closed hc hq hn]
      · simp [drainN, receive_blocked hc hq hn]
    | cons t rest =>
      obtain ⟨h1, h2⟩ := receive_avail h
      simp only [drainN]
      rw [h1]
      simp only [List.take_succ_cons]
      rw [ih, h2]

/-- Receives served from the cache while the shared queue is empty acquire
the lock zero times. -/
theorem drainN_cache (n : Nat) : ∀ s : ChannelState T, s.queue._queue = [] →
    n ≤ s.cache.length →
    drainN s n = (s.cache.take n, ⟨s.queue, s.cache.drop n⟩, 0) := by
  induction n with
  | zero =>
    intro s _ _
    obtain ⟨⟨q, n⟩, c⟩ := s
    simp [drainN]
  | succ n ih =>
    intro s hq hn
    cases hc : s.cache with
    | nil => rw [hc] at hn; simp at hn
    | cons t c =>
      simp only [drainN, receive_fast hc]
      rw [ih { s with cache := c } hq (by rw [hc] at hn; simpa using hn)]
      simp [hc]

/-- After pushing `vs` on a fresh channel, draining all of `vs` touches the
shared lock exactly once: the first call moves everything into the cache. -/
theorem drainN_locks_once {vs : List T} (hvs : vs ≠ []) :
    drainN (sendAll (Channel.new T) vs) vs.length
      = (vs, ⟨⟨[], 1⟩, []⟩, 1) := by
  cases vs with
  | nil => exact absurd rfl hvs
  | cons v rest =>
    rw [sendAll_eq]
    have h1 : Receiver.receive (⟨⟨v :: rest, 1⟩, []⟩ : ChannelState T)
        = ⟨ReceiveResult.value v, ⟨⟨[], 1⟩, rest⟩, true⟩ := by
      exact receive_slow_value rfl rfl
    simp only [Channel.new, List.nil_append, List.length_cons, drainN, h1]
    rw [drainN_cache rest.length ⟨⟨[], 1⟩, rest⟩ rfl (by simp)]
    simp

/-! ## Counter lemmas and the reachability invariant -/

theorem usizeMod_pos : 0 < usizeMod := by norm_num [usizeMod]

/-- The wrapping decrement of `Drop for Sender` is an exact decrement when
the counter is positive and within `usize` range. -/
theorem drop_count {s : ChannelState T} (h1 : 1 ≤ s.queue.senderCount)
    (h2 : s.queue.senderCount < usizeMod) :
    (Sender.drop s).1.queue.senderCount = s.queue.senderCount - 1 := by
  show (s.queue.senderCount + (usizeMod - 1)) % usizeMod = s.queue.senderCount - 1
  have hM : 0 < usizeMod := usizeMod_pos
  have he : s.queue.senderCount + (usizeMod - 1) = (s.queue.senderCount - 1) + usizeMod := by
    omega
  rw [he, Nat.add_mod_right]
  exact Nat.mod_eq_of_lt (by omega)

/-- Iterated `clone` adds its iteration count to `senderCount` modulo the
`usize` range. -/
theorem clone_iter (c : Nat) : ∀ s : ChannelState T, s.queue.senderCount < usizeMod →
    (Sender.clone^[c] s).queue.senderCount = (s.queue.senderCount + c) % usizeMod := by
  induction c with
  | zero =>
    intro s hs
    simp [Nat.mod_eq_of_lt hs]
  | succ c ih =>
    intro s hs
    rw [Function.iterate_succ_apply']
    show ((Sender.clone^[c] s).queue.senderCount + 1) % usizeMod = _
    rw [ih s hs, Nat.mod_add_mod]
    rfl

/-- Iterated `Sender` destruction subtracts its iteration count exactly, as
long as enough senders are alive. -/
theorem drop_iter (d : Nat) : ∀ s : ChannelState T, d ≤ s.queue.senderCount →
    s.queue.senderCount < usizeMod →
    ((fun x => (Sender.drop x).1)^[d] s).queue.senderCount = s.queue.senderCount - d := by
  induction d with
  | zero => intro s _ _; simp
  | succ d ih =>
    intro s hd hM
    rw [Function.iterate_succ_apply]
    have h1 : ((Sender.drop s).1).queue.senderCount = s.queue.senderCount - 1 :=
      drop_count (by omega) hM
    rw [ih _ (by rw [h1]; omega) (by rw [h1]; omega), h1]
    omega

/-- Invariant: in every reachable configuration, the stored `senderCount`
is the number of live `Sender` handles, reduced modulo the `usize` range. -/
theorem reach_senderCount {c : Cfg T} (h : Reach c) :
    c.1.queue.senderCount = c.2 % usizeMod := by
  induction h with
  | refl =>
    show (1 : Nat) = 1 % usizeMod
    exact (Nat.mod_eq_of_lt (by norm_num [usizeMod])).symm
  | tail hsteps hstep ih =>
    cases hstep with
    | send s h t hp => simpa [Sender.send] using ih
    | clone s h hp =>
      show (s.queue.senderCount + 1) % usizeMod = (h + 1) % usizeMod
      rw [ih]
      exact Nat.mod_add_mod h usizeMod 1
    | senderDrop s h hp =>
      show (s.queue.senderCount + (usizeMod - 1)) % usizeMod = (h - 1) % usizeMod
      rw [ih, Nat.mod_add_mod]
      have hM : 0 < usizeMod := usizeMod_pos
      have he : h + (usizeMod - 1) = (h - 1) + usizeMod := by omega
      rw [he, Nat.add_mod_right]
    | receive s h =>
      show (Receiver.receive s).state.queue.senderCount = h % usizeMod
      rw [receive_count]
      exact ih

/-- From a closed configuration (no cached or pending values, counter zero,
no live handles) the only enabled operation is `receive`, which changes
nothing: the configuration is a fixpoint of the step relation. -/
theorem steps_closed {s : ChannelState T}
    (hc : s.cache = []) (hq : s.queue._queue = []) (hn : s.queue.senderCount = 0) :
    ∀ c : Cfg T, Steps (s, 0) c → c = (s, 0) := by
  intro c h
  induction h with
  | refl => rfl
  | tail hsteps hstep ih =>
    rw [ih] at hstep
    cases hstep with
    | send _ _ _ hp => exact absurd hp (by omega)
    | clone _ _ hp => exact absurd hp (by omega)
    | senderDrop _ _ hp => exact absurd hp (by omega)
    | receive _ _ => rw [receive_closed hc hq hn]

/-! ## Claim theorems -/

/-- C1: successive `receive` calls return exactly the values of the channel
— the already-cached ones followed by the shared queue's, which is the
order the values were appended under the lock, whichever producer appended
them — each exactly once and in order; the batched move into the cache
preserves this order.  In particular, after sending `vs` on a fresh
channel, `vs.length` receives return exactly `vs`. -/
theorem receive_fifo_order :
    (∀ (s : ChannelState T) (n : Nat),
        (drainN s n).1 = (s.cache ++ s.queue._queue).take n)
    ∧ (∀ vs : List T, (drainN (sendAll (Channel.new T) vs) vs.length).1 = vs) := by
  refine ⟨fun s n => drainN_take n s, fun vs => ?_⟩
  rw [drainN_take, sendAll_eq]
  simp [Channel.new]

/-- C2: when `receive` finds the cache empty, the shared queue empty and
`senderCount = 0`, it returns end-of-stream and leaves the state unchanged;
in a reachable configuration this means no live `Sender` handle exists, so
every subsequent sequence of public operations leaves the configuration
fixed and every subsequent `receive` keeps returning end-of-stream — the
state is terminal and permanent. -/
theorem receive_end_of_stream_terminal {s : ChannelState T} {h : Nat}
    (hr : Reach (s, h)) (hb : h < usizeMod)
    (hc : s.cache = []) (hq : s.queue._queue = []) (hn : s.queue.senderCount = 0) :
    (Receiver.receive s).result = ReceiveResult.endOfStream
    ∧ (Receiver.receive s).state = s
    ∧ h = 0
    ∧ ∀ c : Cfg T, Steps (s, h) c →
        c = (s, h) ∧ (Receiver.receive c.1).result = ReceiveResult.endOfStream := by
  have e := reach_senderCount hr
  simp only at e
  rw [Nat.mod_eq_of_lt hb] at e
  have h0 : h = 0 := by omega
  subst h0
  refine ⟨by rw [receive_closed hc hq hn], by rw [receive_closed hc hq hn], rfl, ?_⟩
  intro c hsteps
  have hfix := steps_closed hc hq hn c hsteps
  refine ⟨hfix, ?_⟩
  rw [hfix]
  rw [receive_closed hc hq hn]

/-- Witness for C2: dropping the only sender of a fresh channel yields a
closed configuration, and `receive` there returns end-of-stream. -/
theorem receive_end_of_stream_terminal_witness :
    (Receiver.receive ((Sender.drop (Channel.new Nat)).1)).result
      = ReceiveResult.endOfStream :=
  (receive_end_of_stream_terminal
    (Steps.tail Steps.refl (Step.senderDrop (Channel.new Nat) 1 (by decide)))
    (by norm_num [usizeMod]) rfl rfl (by decide)).1

/-- C3: `clone` adds exactly one to `senderCount` (within `usize` range)
and changes nothing else; `Sender` destruction subtracts exactly one,
changes nothing else, and reports a condition-variable signal precisely
when the decremented count is zero — the comparison is taken on the value
produced by the decrement inside the same critical section; after `c`
clones and `d` destructions starting from the factory's single sender the
count is `1 + c - d`; and once the count is zero a receiver finding
nothing buffered gets end-of-stream instead of blocking forever. -/
theorem sender_liveness_counting :
    (∀ s : ChannelState T, s.queue.senderCount + 1 < usizeMod →
        (Sender.clone s).queue.senderCount = s.queue.senderCount + 1
        ∧ (Sender.clone s).queue._queue = s.queue._queue
        ∧ (Sender.clone s).cache = s.cache)
    ∧ (∀ s : ChannelState T, 1 ≤ s.queue.senderCount → s.queue.senderCount < usizeMod →
        (Sender.drop s).1.queue.senderCount = s.queue.senderCount - 1
        ∧ (Sender.drop s).1.queue._queue = s.queue._queue
        ∧ (Sender.drop s).1.cache = s.cache
        ∧ ((Sender.drop s).2 = true ↔ (Sender.drop s).1.queue.senderCount = 0))
    ∧ (∀ c d : Nat, d ≤ c + 1 → c + 1 < usizeMod →
        ((fun x => (Sender.drop x).1)^[d] (Sender.clone^[c] (Channel.new T))).queue.senderCount
          = 1 + c - d)
    ∧ (∀ s : ChannelState T, s.cache = [] → s.queue._queue = [] →
        s.queue.senderCount = 0 →
        (Receiver.receive s).result = ReceiveResult.endOfStream) := by
  refine ⟨fun s hs => ⟨?_, rfl, rfl⟩, fun s h1 h2 => ?_,
    fun c d hd hcd => ?_, fun s hc hq hn => by rw [receive_closed hc hq hn]⟩
  · show (s.queue.senderCount + 1) % usizeMod = s.queue.senderCount + 1
    exact Nat.mod_eq_of_lt hs
  · obtain ⟨⟨q, n⟩, c⟩ := s
    have a1 : (Sender.drop (⟨⟨q, n⟩, c⟩ : ChannelState T)).1.queue.senderCount = n - 1 :=
      drop_count h1 h2
    have a2 : (Sender.drop (⟨⟨q, n⟩, c⟩ : ChannelState T)).1.queue._queue = q := rfl
    have a3 : (Sender.drop (⟨⟨q, n⟩, c⟩ : ChannelState T)).1.cache = c := rfl
    have a4 : ((Sender.drop (⟨⟨q, n⟩, c⟩ : ChannelState T)).2 = true
        ↔ (Sender.drop (⟨⟨q, n⟩, c⟩ : ChannelState T)).1.queue.senderCount = 0) := by
      show ((n + (usizeMod - 1)) % usizeMod == 0) = true
        ↔ (n + (usizeMod - 1)) % usizeMod = 0
      simp
    exact ⟨a1, a2, a3, a4⟩
  · have hnew : (Channel.new T).queue.senderCount < usizeMod := by
      norm_num [Channel.new, usizeMod]
    have h2 : (Sender.clone^[c] (Channel.new T)).queue.senderCount = 1 + c := by
      rw [clone_iter c (Channel.new T) hnew]
      show (1 + c) % usizeMod = 1 + c
      exact Nat.mod_eq_of_lt (by omega)
    rw [drop_iter d _ (by omega) (by omega), h2]

/-- Witness for C3: the spec's liveness-counting scenario — two clones then
three destructions starting from the factory's sender leave the count at
`1 + 2 - 3 = 0`. -/
theorem sender_liveness_counting_witness :
    ((fun x => (Sender.drop x).1)^[3] (Sender.clone^[2] (Channel.new Nat))).queue.senderCount
      = 1 + 2 - 3 :=
  sender_liveness_counting.2.2.1 2 3 (by omega) (by norm_num [usizeMod])

/-- C4: when `receive` takes the slow path on a non-empty shared queue it
pops the front element, moves the entire rest into the private cache in
one order-preserving operation, and leaves the shared queue empty; as a
consequence, after `N` values are pushed with no intervening receives, the
next `N` receive calls return all `N` values in push order while acquiring
the shared lock exactly once (the other `N - 1` calls are served from the
private cache). -/
theorem receive_batches_into_cache :
    (∀ (s : ChannelState T) (t : T) (rest : List T),
        s.cache = [] → s.queue._queue = t :: rest →
        Receiver.receive s
          = ⟨ReceiveResult.value t, ⟨⟨[], s.queue.senderCount⟩, rest⟩, true⟩)
    ∧ (∀ vs : List T, vs ≠ [] →
        (drainN (sendAll (Channel.new T) vs) vs.length).1 = vs
        ∧ (drainN (sendAll (Channel.new T) vs) vs.length).2.2 = 1) := by
  refine ⟨fun s t rest hc hq => receive_slow_value hc hq, fun vs hvs => ?_⟩
  rw [drainN_locks_once hvs]
  exact ⟨rfl, rfl⟩

/-- Witness for C4: a slow-path receive on queue `[7, 8, 9]` returns `7`,
caches `[8, 9]` and empties the queue; draining five pushed values takes
exactly one lock acquisition. -/
theorem receive_batches_into_cache_witness :
    Receiver.receive (⟨⟨[7, 8, 9], 2⟩, []⟩ : ChannelState Nat)
      = ⟨ReceiveResult.value 7, ⟨⟨[], 2⟩, [8, 9]⟩, true⟩
    ∧ (drainN (sendAll (Channel.new Nat) [1, 2, 3, 4, 5]) 5).2.2 = 1 :=
  ⟨receive_batches_into_cache.1 ⟨⟨[7, 8, 9], 2⟩, []⟩ 7 [8, 9] rfl rfl,
   (receive_batches_into_cache.2 [1, 2, 3, 4, 5] (by decide)).2⟩

/-- C5: the factory returns a fresh shared state with an empty pending
queue, `senderCount = 1` (the one returned `Sender`), and an empty receiver
cache; the initial configuration of the reachability relation is exactly
this state with one live sender handle. -/
theorem channel_new_fresh :
    (Channel.new T).queue._queue = []
    ∧ (Channel.new T).queue.senderCount = 1
    ∧ (Channel.new T).cache = []
    ∧ Reach (Channel.new T, 1) :=
  ⟨rfl, rfl, rfl, Steps.refl⟩

/-- C6: `send` appends its value at the tail of the pending queue and
changes nothing else; it is a total function into a plain state — no error
component, no blocking, no rejection — for every value and every state. -/
theorem send_appends_totally (s : ChannelState T) (t : T) :
    (Sender.send s t).queue._queue = s.queue._queue ++ [t]
    ∧ (Sender.send s t).queue.senderCount = s.queue.senderCount
    ∧ (Sender.send s t).cache = s.cache :=
  ⟨rfl, rfl, rfl⟩

/-- C7: with a non-empty cache, `receive` pops and returns the cache's
front without acquiring the shared lock, leaving the shared queue and the
sender count untouched. -/
theorem receive_fast_path (s : ChannelState T) (t : T) (rest : List T)
    (hc : s.cache = t :: rest) :
    Receiver.receive s = ⟨ReceiveResult.value t, { s with cache := rest }, false⟩ :=
  receive_fast hc

/-- Witness for C7: with cache `[4, 5]`, `receive` returns `4` lock-free
and leaves the shared queue `[9]` and count `1` unchanged. -/
theorem receive_fast_path_witness :
    Receiver.receive (⟨⟨[9], 1⟩, [4, 5]⟩ : ChannelState Nat)
      = ⟨ReceiveResult.value 4, ⟨⟨[9], 1⟩, [5]⟩, false⟩ :=
  receive_fast_path ⟨⟨[9], 1⟩, [4, 5]⟩ 4 [5] rfl

/-- C8: every `receive` call that acquires the shared lock and returns a
value leaves the shared pending queue empty: either the queue held exactly
the popped element, or the swap drained the remainder into the (previously
empty) cache, leaving the old cache contents — nothing — in the queue. -/
theorem receive_locked_value_empties_queue (s : ChannelState T) (t : T)
    (hl : (Receiver.receive s).lockAcquired = true)
    (hv : (Receiver.receive s).result = ReceiveResult.value t) :
    (Receiver.receive s).state.queue._queue = [] := by
  obtain ⟨⟨q, n⟩, c⟩ := s
  cases c with
  | cons a as => simp [Receiver.receive] at hl
  | nil =>
    cases q with
    | nil =>
      by_cases hn : n = 0
      · rw [receive_closed rfl rfl hn] at hv; simp at hv
      · rw [receive_blocked rfl rfl hn] at hv; simp at hv
    | cons b bs =>
      rw [receive_slow_value rfl rfl]

/-- Witness for C8: a locked receive on queue `[3, 4]` returns a value and
leaves the shared queue empty. -/
theorem receive_locked_value_empties_queue_witness :
    (Receiver.receive (⟨⟨[3, 4], 1⟩, []⟩ : ChannelState Nat)).state.queue._queue = [] :=
  receive_locked_value_empties_queue ⟨⟨[3, 4], 1⟩, []⟩ 3 rfl rfl

/-- C9: the `swap` in the slow path only runs after the fast-path pop from
the cache has failed, i.e. with an empty cache, so writing the old cache
into the shared queue is observably the spec's move-and-empty operation:
`receive` and the spec-worded variant agree on every state — no cached
value is ever moved back into the shared queue, lost, or reordered. -/
theorem receive_swap_refines_spec_move (s : ChannelState T) :
    Receiver.receive s = Receiver.receiveSpecMove s := by
  obtain ⟨⟨q, n⟩, c⟩ := s
  cases c with
  | cons a as => rfl
  | nil =>
    cases q with
    | nil => rfl
    | cons b bs => cases bs <;> rfl

/-- C10: in every configuration reachable through the public interface
(with physically realizable handle counts), `senderCount` equals the number
of live `Sender` handles; hence whenever a destructor can run (a live
handle exists) the counter is at least `1` and the unguarded wrapping
decrement is an exact decrement — it never underflows the `usize`
counter. -/
theorem senderCount_matches_live_handles {s : ChannelState T} {h : Nat}
    (hr : Reach (s, h)) (hb : h < usizeMod) :
    s.queue.senderCount = h
    ∧ (0 < h →
        1 ≤ s.queue.senderCount
        ∧ (Sender.drop s).1.queue.senderCount = s.queue.senderCount - 1) := by
  have e := reach_senderCount hr
  simp only at e
  rw [Nat.mod_eq_of_lt hb] at e
  exact ⟨e, fun hp => ⟨by omega, drop_count (by omega) (by omega)⟩⟩

/-- Witness for C10: the initial configuration has count `1` matching its
single live handle, which is at least `1`. -/
theorem senderCount_matches_live_handles_witness :
    (Channel.new Nat).queue.senderCount = 1
    ∧ 1 ≤ (Channel.new Nat).queue.senderCount :=
  have h := senderCount_matches_live_handles
    (Steps.refl : Reach (Channel.new Nat, 1)) (by norm_num [usizeMod])
  ⟨h.1, (h.2 (by omega)).1⟩

end Channels
